import Mathlib

/-!
Verification of the ARP module of `src/net/ip4/arp.cpp` (IncludeOS).

The module state (class `Arp`) is embedded as a Lean structure, its member
functions as pure functions from states to states plus a list of frames handed
to the link-layer sink (`linklayer_out_` calls).  The two single-shot timers
are modelled as booleans (`running` flags); a timer callback may only fire
while its flag is set, and firing clears the flag before the callback runs.
Maps (`std::map`) are modelled as association lists with unique keys.
-/

set_option linter.unusedVariables false

namespace ArpSpec

/-- IPv4 address, as its 32-bit numeric value. -/
abbrev IPAddr := Nat

/-- Link-layer (MAC) address, as its 48-bit numeric value. -/
abbrev MACAddr := Nat

/-- `IP4::ADDR_BCAST`, the all-ones IPv4 broadcast address. -/
def ADDR_BCAST : IPAddr := 4294967295

/-- `MAC::BROADCAST`, the all-ones Ethernet broadcast address. -/
def MAC_BROADCAST : MACAddr := 281474976710655

/-- Ethertype of a frame handed to the link layer. -/
inductive Ethertype where
  | ARP
  | IP4
deriving DecidableEq, Repr

/-- ARP opcode `H_request`. -/
def H_request : Nat := 1

/-- ARP opcode `H_reply`. -/
def H_reply : Nat := 2

/-- The ARP header fields read and written by `arp.cpp` (`hdr->opcode`,
`hdr->shwaddr`, `hdr->sipaddr`, dest MAC and `hdr->dipaddr`). -/
structure header where
  opcode : Nat
  shwaddr : MACAddr
  sipaddr : IPAddr
  dhwaddr : MACAddr
  dipaddr : IPAddr
deriving DecidableEq, Repr

/-- An upper-layer packet buffer.  `size` is `pckt->size()`; `pid` is an
identity used to track individual buffers through the pending queue. -/
structure Packet where
  size : Nat
  pid : Nat
deriving DecidableEq, Repr

/-- One call to the link-layer sink `linklayer_out_`: either an IPv4 chain of
packet buffers or a constructed ARP frame, with the destination MAC. -/
inductive Out where
  | ip4 (chain : List Packet) (dst : MACAddr)
  | arp (frame : header) (dst : MACAddr)
deriving DecidableEq, Repr

/-- The Ethertype argument of the `linklayer_out_` call. -/
def Out.eth : Out → Ethertype
  | .ip4 _ _ => Ethertype.IP4
  | .arp _ _ => Ethertype.ARP

/-- True iff the frame handed to the link is an ARP frame. -/
def isArpOut : Out → Bool
  | .arp _ _ => true
  | .ip4 _ _ => false

/-- Lookup in an association list keyed by `Nat` (model of `std::map::find`). -/
def lookupA {β : Type} : List (Nat × β) → Nat → Option β
  | [], _ => none
  | kv :: rest, k => if kv.1 = k then some kv.2 else lookupA rest k

/-- Insert/overwrite at a key (model of `std::map::operator[]` assignment). -/
def insertA {β : Type} : List (Nat × β) → Nat → β → List (Nat × β)
  | [], k, v => [(k, v)]
  | kv :: rest, k, v => if kv.1 = k then (k, v) :: rest else kv :: insertA rest k v

/-- Remove a key (model of `std::map::erase`). -/
def eraseA {β : Type} (m : List (Nat × β)) (k : Nat) : List (Nat × β) :=
  m.filter (fun kv => kv.1 ≠ k)

/-- Modelled from the spec: the cache entry type is declared in `arp.hpp`,
which is not among the sources.  Per the spec a cache entry stores the learned
MAC and the last-refresh timestamp. -/
structure Entry where
  mac : MACAddr
  timestamp : Nat
deriving DecidableEq, Repr

/-- Modelled from the spec: `Entry::update()` refreshes the timestamp to the
current time. -/
def Entry.update (e : Entry) (now : Nat) : Entry :=
  { e with timestamp := now }

/-- Modelled from the spec: an entry is expired when
`now - timestamp >= flush_interval`. -/
def Entry.expired (e : Entry) (now flush_interval : Nat) : Bool :=
  decide (flush_interval ≤ now - e.timestamp)

/-- The state of the `Arp` module: the four counters, the stack-provided local
IPv4 (`inet_.ip_addr()`) and MAC (`mac_`), the optional proxy predicate
(`proxy_`), the cache and pending-packet maps, the two timers as running
flags, the current time, and the configured `flush_interval_`. -/
structure Arp where
  requests_rx_ : Nat
  requests_tx_ : Nat
  replies_rx_ : Nat
  replies_tx_ : Nat
  ip_addr : IPAddr
  mac_ : MACAddr
  proxy_ : Option (IPAddr → Bool)
  cache_ : List (Nat × Entry)
  waiting_packets_ : List (Nat × List Packet)
  flush_timer_running : Bool
  resolve_timer_running : Bool
  now : Nat
  flush_interval_ : Nat

/-- `Arp::cache(ip, mac)`: refresh the timestamp when the cached MAC matches,
replace the entry when it conflicts, insert (and arm the flush timer if it was
not running) when the IP was not cached. -/
def Arp.cache (self : Arp) (ip : IPAddr) (mac : MACAddr) : Arp :=
  match lookupA self.cache_ ip with
  | some entry =>
    if entry.mac ≠ mac then
      { self with cache_ := insertA (eraseA self.cache_ ip) ip ⟨mac, self.now⟩ }
    else
      { self with cache_ := insertA self.cache_ ip (entry.update self.now) }
  | none =>
    let s2 := { self with cache_ := insertA self.cache_ ip ⟨mac, self.now⟩ }
    if ¬ s2.flush_timer_running then
      { s2 with flush_timer_running := true }
    else s2

/-- `Arp::arp_respond(hdr_in, ack_ip)`: bump `replies_tx_`, build the reply
(the `PacketArp::init`/`set_dest_mac` field assignments are modelled from the
spec, `packet_arp.hpp` not being among the sources: sender IPv4 = `ack_ip`,
sender MAC = local MAC, target = the request's sender) and hand it to the link
with Ethertype ARP. -/
def Arp.arp_respond (self : Arp) (hdr_in : header) (ack_ip : IPAddr) : Arp × List Out :=
  let s := { self with replies_tx_ := self.replies_tx_ + 1 }
  let res : header :=
    { opcode := H_reply, shwaddr := s.mac_, sipaddr := ack_ip,
      dhwaddr := hdr_in.shwaddr, dipaddr := hdr_in.sipaddr }
  (s, [Out.arp res hdr_in.shwaddr])

/-- `Arp::arp_resolve(next_hop)`: build a broadcast ARP request (field
assignments of `PacketArp::init`/`set_dest_mac` modelled from the spec), bump
`requests_tx_` and hand it to the link with Ethertype ARP. -/
def Arp.arp_resolve (self : Arp) (next_hop : IPAddr) : Arp × List Out :=
  let req : header :=
    { opcode := H_request, shwaddr := self.mac_, sipaddr := self.ip_addr,
      dhwaddr := MAC_BROADCAST, dipaddr := next_hop }
  let s := { self with requests_tx_ := self.requests_tx_ + 1 }
  (s, [Out.arp req MAC_BROADCAST])

/-- `Arp::await_resolution(pckt, next_hop)`: chain onto an existing pending
entry, or create the entry, resolve immediately (`arp_resolver_` defaults to
`arp_resolve`, modelled from the spec since `arp.hpp` is not among the
sources) and start the resolve timer. -/
def Arp.await_resolution (self : Arp) (pckt : List Packet) (next_hop : IPAddr) :
    Arp × List Out :=
  match lookupA self.waiting_packets_ next_hop with
  | some queued =>
    ({ self with waiting_packets_ := insertA self.waiting_packets_ next_hop (queued ++ pckt) }, [])
  | none =>
    let s := { self with waiting_packets_ := insertA self.waiting_packets_ next_hop pckt }
    let r := Arp.arp_resolve s next_hop
    ({ r.1 with resolve_timer_running := true }, r.2)

/-- `Arp::transmit(pckt, next_hop)`.  `Expects(pckt->size())` is the contract
check: a missing buffer or a zero-size head buffer aborts, modelled as `none`.
The `ARP_PASSTHROUGH` compile-time branch is not defined in this build, so the
cache path is the one modelled.
Otherwise the broadcast next-hop goes straight to the link broadcast MAC, a
cache hit goes to the cached MAC (both with Ethertype IPv4), and a cache miss
enters `await_resolution`. -/
def Arp.transmit (self : Arp) (pckt : List Packet) (next_hop : IPAddr) :
    Option (Arp × List Out) :=
  match pckt with
  | [] => none
  | p :: rest =>
    if p.size = 0 then none
    else if next_hop = ADDR_BCAST then
      some (self, [Out.ip4 (p :: rest) MAC_BROADCAST])
    else
      match lookupA self.cache_ next_hop with
      | none => some (Arp.await_resolution self (p :: rest) next_hop)
      | some entry => some (self, [Out.ip4 (p :: rest) entry.mac])

/-- An inbound buffer handed to `Arp::receive`: its byte count and the header
fields that `reinterpret_cast<header*>(pckt->layer_begin())` yields.  The code
never checks `size`; the field is carried so that under-sized frames can be
expressed. -/
structure RecvFrame where
  size : Nat
  hdr : header
deriving DecidableEq, Repr

/-- `Arp::receive(pckt)`: cache the sender binding, drain (via `transmit`) and
erase any pending entry for the sender, then dispatch on the opcode
(requests: bump `requests_rx_`, respond when the target is the local IPv4 or
accepted by the proxy predicate; replies: bump `replies_rx_`; other opcodes:
nothing). -/
def Arp.receive (self : Arp) (pckt : RecvFrame) : Option (Arp × List Out) :=
  let hdr := pckt.hdr
  let s1 := Arp.cache self hdr.sipaddr hdr.shwaddr
  let drained : Option (Arp × List Out) :=
    match lookupA s1.waiting_packets_ hdr.sipaddr with
    | some waiting =>
      match Arp.transmit s1 waiting hdr.sipaddr with
      | none => none
      | some r =>
        some ({ r.1 with waiting_packets_ := eraseA r.1.waiting_packets_ hdr.sipaddr }, r.2)
    | none => some (s1, [])
  match drained with
  | none => none
  | some (s2, outs1) =>
    if hdr.opcode = H_request then
      let s3 := { s2 with requests_rx_ := s2.requests_rx_ + 1 }
      if hdr.dipaddr = s3.ip_addr then
        let r := Arp.arp_respond s3 hdr s3.ip_addr
        some (r.1, outs1 ++ r.2)
      else
        match s3.proxy_ with
        | some prx =>
          if prx hdr.dipaddr then
            let r := Arp.arp_respond s3 hdr hdr.dipaddr
            some (r.1, outs1 ++ r.2)
          else some (s3, outs1)
        | none => some (s3, outs1)
    else if hdr.opcode = H_reply then
      some ({ s2 with replies_rx_ := s2.replies_rx_ + 1 }, outs1)
    else
      some (s2, outs1)

/-- `Arp::resolve_waiting()` (resolve-timer callback): stop the timer when the
pending queue is empty, otherwise issue `arp_resolver_` for every pending IP
and restart the timer. -/
def Arp.resolve_waiting (self : Arp) : Arp × List Out :=
  if self.waiting_packets_.isEmpty then
    ({ self with resolve_timer_running := false }, [])
  else
    let r := self.waiting_packets_.foldl
      (fun acc kv =>
        let r2 := Arp.arp_resolve acc.1 kv.1
        (r2.1, acc.2 ++ r2.2))
      (self, [])
    ({ r.1 with resolve_timer_running := true }, r.2)

/-- `Arp::flush_expired()` (flush-timer callback): collect the expired cache
entries, erase them, and restart the timer iff the cache is still non-empty. -/
def Arp.flush_expired (self : Arp) : Arp :=
  let expired := (self.cache_.filter
    (fun ent => Entry.expired ent.2 self.now self.flush_interval_)).map (fun ent => ent.1)
  let s := { self with cache_ := expired.foldl (fun c ip => eraseA c ip) self.cache_ }
  if ¬ s.cache_.isEmpty then { s with flush_timer_running := true } else s

/-- The state built by the `Arp` constructor: zeroed counters, empty maps,
both timers stopped. -/
def Arp.init (ip : IPAddr) (mac : MACAddr) (fi : Nat) (prx : Option (IPAddr → Bool)) : Arp :=
  { requests_rx_ := 0, requests_tx_ := 0, replies_rx_ := 0, replies_tx_ := 0,
    ip_addr := ip, mac_ := mac, proxy_ := prx, cache_ := [], waiting_packets_ := [],
    flush_timer_running := false, resolve_timer_running := false, now := 0,
    flush_interval_ := fi }

/-- An external event driving the module: an inbound ARP frame, an outbound
transmit from the upper layer, one of the two timer callbacks firing, or the
passage of time. -/
inductive Event where
  | recv (f : RecvFrame)
  | xmit (chain : List Packet) (next_hop : IPAddr)
  | resolveTick
  | flushTick
  | advance (d : Nat)
deriving DecidableEq, Repr

/-- One event step.  A single-shot timer may fire only while running, and
firing clears the flag before the callback runs; `advance` only moves the
clock. -/
def step (s : Arp) : Event → Option (Arp × List Out)
  | .recv f => Arp.receive s f
  | .xmit chain nh => Arp.transmit s chain nh
  | .resolveTick =>
    if s.resolve_timer_running then
      some (Arp.resolve_waiting { s with resolve_timer_running := false })
    else none
  | .flushTick =>
    if s.flush_timer_running then
      some (Arp.flush_expired { s with flush_timer_running := false }, [])
    else none
  | .advance d => some ({ s with now := s.now + d }, [])

/-- Run a list of events from a state, collecting all link-layer output. -/
def runTrace (s : Arp) : List Event → Option (Arp × List Out)
  | [] => some (s, [])
  | e :: rest =>
    match step s e with
    | none => none
    | some r =>
      match runTrace r.1 rest with
      | none => none
      | some r2 => some (r2.1, r.2 ++ r2.2)

/-- States reachable from a freshly constructed module by successful events. -/
inductive Reachable : Arp → Prop where
  | init : ∀ ip mac fi prx, Reachable (Arp.init ip mac fi prx)
  | step : ∀ s e s2 outs, Reachable s → step s e = some (s2, outs) → Reachable s2

/-- Structural invariant of reachable states: the flush timer tracks cache
non-emptiness, the resolve timer is running whenever packets are pending, the
broadcast address is never a pending key, and both maps have unique keys. -/
def Inv (s : Arp) : Prop :=
  (s.flush_timer_running = true ↔ s.cache_ ≠ []) ∧
  (s.waiting_packets_ ≠ [] → s.resolve_timer_running = true) ∧
  lookupA s.waiting_packets_ ADDR_BCAST = none ∧
  (s.cache_.map Prod.fst).Nodup ∧
  (s.waiting_packets_.map Prod.fst).Nodup

/-- True iff the event is an upper-layer transmit whose next hop is `ip`. -/
def Event.isXmitTo (ip : IPAddr) : Event → Bool
  | .xmit _ nh => nh == ip
  | _ => false

/-- True iff the event is a resolve-timer tick. -/
def Event.isTick : Event → Bool
  | .resolveTick => true
  | _ => false

/-- True iff the event only advances the clock. -/
def Event.isAdvance : Event → Bool
  | .advance _ => true
  | _ => false

/-- True iff the output frame is an ARP request whose target IPv4 is `ip`. -/
def isReqFor (ip : IPAddr) : Out → Bool
  | .arp fr _ => fr.opcode == H_request && fr.dipaddr == ip
  | _ => false

/-- Iterate `Arp::cache` on the same `(ip, mac)` pair; before each learn the
clock advances by the corresponding increment from `ds`. -/
def learnRun (s : Arp) (ip : IPAddr) (mac : MACAddr) (ds : List Nat) : Arp :=
  ds.foldl (fun t d => Arp.cache { t with now := t.now + d } ip mac) s

/-- A concrete module: local IPv4 10, local MAC 2, flush interval 300, no
proxy predicate. -/
def wInit : Arp := Arp.init 10 2 300 none

/-- A 28-byte inbound ARP frame with the given opcode, sender IPv4, sender MAC
and target IPv4. -/
def wFrame (op : Nat) (sip : IPAddr) (smac : MACAddr) (dip : IPAddr) : RecvFrame :=
  ⟨28, ⟨op, smac, sip, 2, dip⟩⟩

/-- `wInit` after a transmit of one packet to the uncached next hop 9. -/
def wPend : Arp := ((Arp.transmit wInit [⟨5, 1⟩] 9).getD (wInit, [])).1

/-- Result of `receive` on `wInit` of a reply from 5 at MAC 77. -/
def w1 : Arp × List Out := (Arp.receive wInit (wFrame H_reply 5 77 10)).getD (wInit, [])

/-- Result of `receive` on `wPend` of a reply from 9 at MAC 77. -/
def w2 : Arp × List Out := (Arp.receive wPend (wFrame H_reply 9 77 10)).getD (wPend, [])

/-- Result of `receive` on `wInit` of a request from 5 targeting the local 10. -/
def w4 : Arp × List Out := (Arp.receive wInit (wFrame H_request 5 77 10)).getD (wInit, [])

/-- A 10-byte inbound buffer, shorter than an ARP header; the header fields
are whatever the out-of-bounds `reinterpret_cast` read yields. -/
def c6f : RecvFrame := ⟨10, ⟨9, 7, 5, 0, 6⟩⟩

/-- Result of `receive` on `wInit` of the under-sized buffer `c6f`. -/
def w6 : Arp × List Out := (Arp.receive wInit c6f).getD (wInit, [])

/-- Two transmits to the uncached next hop 9 interleaved with two
resolve-timer ticks. -/
def w8es : List Event :=
  [Event.xmit [⟨5, 1⟩] 9, Event.resolveTick, Event.xmit [⟨6, 2⟩] 9, Event.resolveTick]

/-- Result of running `w8es` from `wInit`. -/
def w8 : Arp × List Out := (runTrace wInit w8es).getD (wInit, [])

/-- An inbound reply whose sender IPv4 field equals the local address 10. -/
def c9f : RecvFrame := wFrame H_reply 10 66 10

/-- Result of `receive` on `wInit` of the local-sender frame `c9f`. -/
def w9 : Arp × List Out := (Arp.receive wInit c9f).getD (wInit, [])

/-- A single receive event from the foreign sender 5. -/
def w9es : List Event := [Event.recv (wFrame H_reply 5 77 10)]

/-- Result of running `w9es` from `wInit`. -/
def w9t : Arp × List Out := (runTrace wInit w9es).getD (wInit, [])

/-- Result of `receive` on `wPend` of a frame with the unknown opcode 7 from
sender 9. -/
def w10 : Arp × List Out := (Arp.receive wPend (wFrame 7 9 77 10)).getD (wPend, [])

/-! ### Association-list lemmas -/

@[simp]
theorem lookupA_nil {β : Type} (k : Nat) : lookupA ([] : List (Nat × β)) k = none := rfl

theorem lookupA_insertA_self {β : Type} (m : List (Nat × β)) (k : Nat) (v : β) :
    lookupA (insertA m k v) k = some v := by
  induction m with
  | nil => simp [insertA, lookupA]
  | cons kv rest ih =>
    by_cases h : kv.1 = k
    · simp [insertA, h, lookupA]
    · simp [insertA, h, lookupA, ih]

theorem lookupA_insertA_ne {β : Type} (m : List (Nat × β)) (k k' : Nat) (v : β)
    (h : k' ≠ k) : lookupA (insertA m k v) k' = lookupA m k' := by
  have hkk : ¬ k = k' := fun hh => h hh.symm
  induction m with
  | nil => simp [insertA, lookupA, hkk]
  | cons kv rest ih =>
    by_cases hk : kv.1 = k
    · subst hk
      simp [insertA, lookupA, hkk]
    · by_cases hk' : kv.1 = k'
      · simp [insertA, hk, lookupA, hk', hkk, h]
      · simp [insertA, hk, lookupA, hk', ih, hkk, h]

theorem lookupA_eraseA_self {β : Type} (m : List (Nat × β)) (k : Nat) :
    lookupA (eraseA m k) k = none := by
  induction m with
  | nil => simp [eraseA]
  | cons kv rest ih =>
    by_cases h : kv.1 = k
    · simpa [eraseA, List.filter_cons, h] using ih
    · simpa [eraseA, List.filter_cons, h, lookupA] using ih

theorem lookupA_eraseA_ne {β : Type} (m : List (Nat × β)) (k k' : Nat) (h : k' ≠ k) :
    lookupA (eraseA m k) k' = lookupA m k' := by
  induction m with
  | nil => simp [eraseA]
  | cons kv rest ih =>
    by_cases hk : kv.1 = k
    · subst hk
      have hne : ¬ kv.1 = k' := fun hh => h hh.symm
      simpa [eraseA, List.filter_cons, lookupA, hne] using ih
    · by_cases hk' : kv.1 = k'
      · simp [eraseA, List.filter_cons, lookupA, hk, hk', h]
      · simpa [eraseA, List.filter_cons, lookupA, hk, hk', h] using ih

theorem eraseA_of_lookupA_none {β : Type} (m : List (Nat × β)) (k : Nat)
    (h : lookupA m k = none) : eraseA m k = m := by
  induction m with
  | nil => simp [eraseA]
  | cons kv rest ih =>
    by_cases hk : kv.1 = k
    · simp [lookupA, hk] at h
    · simp only [lookupA, if_neg hk] at h
      have hr := ih h
      unfold eraseA at hr ⊢
      rw [List.filter_cons, hr]
      simp [hk]

theorem insertA_ne_nil {β : Type} (m : List (Nat × β)) (k : Nat) (v : β) :
    insertA m k v ≠ [] := by
  cases m with
  | nil => simp [insertA]
  | cons kv rest =>
    by_cases h : kv.1 = k <;> simp [insertA, h]

theorem lookupA_none_iff_not_mem {β : Type} (m : List (Nat × β)) (k : Nat) :
    lookupA m k = none ↔ k ∉ m.map Prod.fst := by
  induction m with
  | nil => simp
  | cons kv rest ih =>
    by_cases h : kv.1 = k
    · simp [lookupA, h]
    · have hne : ¬ k = kv.1 := fun hh => h hh.symm
      simp [lookupA, h, ih, hne]

theorem lookupA_isSome_of_mem_keys {β : Type} (m : List (Nat × β)) (k : Nat)
    (h : k ∈ m.map Prod.fst) : (lookupA m k).isSome := by
  cases hl : lookupA m k with
  | none => exact absurd h ((lookupA_none_iff_not_mem m k).mp hl)
  | some v => rfl

theorem keys_insertA {β : Type} (m : List (Nat × β)) (k : Nat) (v : β) :
    (insertA m k v).map Prod.fst =
      if k ∈ m.map Prod.fst then m.map Prod.fst else m.map Prod.fst ++ [k] := by
  induction m with
  | nil => simp [insertA]
  | cons kv rest ih =>
    by_cases hk : kv.1 = k
    · subst hk
      simp [insertA]
    · have hne : ¬ k = kv.1 := fun hh => hk hh.symm
      by_cases hmem : k ∈ rest.map Prod.fst
      · simp [insertA, hk, ih, hmem, hne]
      · simp [insertA, hk, ih, hmem, hne]

theorem insertA_keys_nodup {β : Type} (m : List (Nat × β)) (k : Nat) (v : β)
    (h : (m.map Prod.fst).Nodup) : ((insertA m k v).map Prod.fst).Nodup := by
  rw [keys_insertA]
  by_cases hmem : k ∈ m.map Prod.fst
  · simpa [hmem] using h
  · simp only [if_neg hmem]
    rw [List.nodup_append]
    refine ⟨h, List.nodup_singleton k, ?_⟩
    intro a ha hb
    simp only [List.mem_singleton] at hb
    exact hmem (hb ▸ ha)

theorem eraseA_keys_sublist {β : Type} (m : List (Nat × β)) (k : Nat) :
    ((eraseA m k).map Prod.fst).Sublist (m.map Prod.fst) :=
  List.Sublist.map Prod.fst (List.filter_sublist m)

theorem eraseA_keys_nodup {β : Type} (m : List (Nat × β)) (k : Nat)
    (h : (m.map Prod.fst).Nodup) : ((eraseA m k).map Prod.fst).Nodup :=
  List.Nodup.sublist (eraseA_keys_sublist m k) h

theorem count_keys_insertA {β : Type} (m : List (Nat × β)) (k : Nat) (v : β)
    (h : (m.map Prod.fst).Nodup) : ((insertA m k v).map Prod.fst).count k = 1 := by
  rw [keys_insertA]
  by_cases hmem : k ∈ m.map Prod.fst
  · simp only [if_pos hmem]
    exact List.count_eq_one_of_mem h hmem
  · simp only [if_neg hmem]
    rw [List.count_append]
    rw [List.count_eq_zero_of_not_mem hmem]
    simp

/-! ### Shape lemmas for the operations -/

theorem cache_shape (s : Arp) (ip : IPAddr) (mac : MACAddr) :
    ∃ c b, Arp.cache s ip mac = { s with cache_ := c, flush_timer_running := b } ∧
      lookupA c ip = some ⟨mac, s.now⟩ ∧
      (∀ ip', ip' ≠ ip → lookupA c ip' = lookupA s.cache_ ip') ∧
      ((s.cache_.map Prod.fst).Nodup → (c.map Prod.fst).Nodup) ∧
      c ≠ [] := by
  unfold Arp.cache
  cases hl : lookupA s.cache_ ip with
  | some entry =>
    by_cases hm : entry.mac ≠ mac
    · refine ⟨insertA (eraseA s.cache_ ip) ip ⟨mac, s.now⟩, s.flush_timer_running, by simp [hm], ?_, ?_, ?_, ?_⟩
      · exact lookupA_insertA_self _ _ _
      · intro ip' hip'
        rw [lookupA_insertA_ne _ _ _ _ hip', lookupA_eraseA_ne _ _ _ hip']
      · intro hnd
        exact insertA_keys_nodup _ _ _ (eraseA_keys_nodup _ _ hnd)
      · exact insertA_ne_nil _ _ _
    · push_neg at hm
      refine ⟨insertA s.cache_ ip (entry.update s.now), s.flush_timer_running, by simp [hm], ?_, ?_, ?_, ?_⟩
      · rw [lookupA_insertA_self]
        simp [Entry.update, hm]
      · intro ip' hip'
        exact lookupA_insertA_ne _ _ _ _ hip'
      · exact fun hnd => insertA_keys_nodup _ _ _ hnd
      · exact insertA_ne_nil _ _ _
  | none =>
    by_cases hf : s.flush_timer_running
    · refine ⟨insertA s.cache_ ip ⟨mac, s.now⟩, s.flush_timer_running, by simp [hf], ?_, ?_, ?_, ?_⟩
      · exact lookupA_insertA_self _ _ _
      · exact fun ip' hip' => lookupA_insertA_ne _ _ _ _ hip'
      · exact fun hnd => insertA_keys_nodup _ _ _ hnd
      · exact insertA_ne_nil _ _ _
    · refine ⟨insertA s.cache_ ip ⟨mac, s.now⟩, true, by simp [hf], ?_, ?_, ?_, ?_⟩
      · exact lookupA_insertA_self _ _ _
      · exact fun ip' hip' => lookupA_insertA_ne _ _ _ _ hip'
      · exact fun hnd => insertA_keys_nodup _ _ _ hnd
      · exact insertA_ne_nil _ _ _

theorem cache_flush_iff (s : Arp) (ip : IPAddr) (mac : MACAddr)
    (h : s.flush_timer_running = true ↔ s.cache_ ≠ []) :
    ((Arp.cache s ip mac).flush_timer_running = true ↔ (Arp.cache s ip mac).cache_ ≠ []) := by
  unfold Arp.cache
  cases hl : lookupA s.cache_ ip with
  | some entry =>
    have hne : s.cache_ ≠ [] := by
      intro hnil
      rw [hnil] at hl
      simp at hl
    have hrun : s.flush_timer_running = true := h.mpr hne
    by_cases hm : entry.mac ≠ mac
    · simpa [hm, hrun] using insertA_ne_nil (eraseA s.cache_ ip) ip ⟨mac, s.now⟩
    · simpa [hm, hrun] using insertA_ne_nil s.cache_ ip (entry.update s.now)
  | none =>
    by_cases hf : s.flush_timer_running
    · simpa [hf] using insertA_ne_nil s.cache_ ip ⟨mac, s.now⟩
    · simpa [hf] using insertA_ne_nil s.cache_ ip ⟨mac, s.now⟩

theorem transmit_some (s : Arp) (chain : List Packet) (nh : IPAddr) (s' : Arp)
    (outs : List Out) (h : Arp.transmit s chain nh = some (s', outs)) :
    (nh = ADDR_BCAST ∧ s' = s ∧ outs = [Out.ip4 chain MAC_BROADCAST]) ∨
    (nh ≠ ADDR_BCAST ∧ ∃ e, lookupA s.cache_ nh = some e ∧ s' = s ∧
       outs = [Out.ip4 chain e.mac]) ∨
    (nh ≠ ADDR_BCAST ∧ lookupA s.cache_ nh = none ∧
       ((∃ q, lookupA s.waiting_packets_ nh = some q ∧
           s' = { s with waiting_packets_ := insertA s.waiting_packets_ nh (q ++ chain) } ∧
           outs = []) ∨
        (lookupA s.waiting_packets_ nh = none ∧
           s' = { s with waiting_packets_ := insertA s.waiting_packets_ nh chain, requests_tx_ := s.requests_tx_ + 1, resolve_timer_running := true } ∧
           outs = [Out.arp ⟨H_request, s.mac_, s.ip_addr, MAC_BROADCAST, nh⟩ MAC_BROADCAST]))) := by
  cases chain with
  | nil => simp [Arp.transmit] at h
  | cons p rest =>
    by_cases hz : p.size = 0
    · simp [Arp.transmit, hz] at h
    · by_cases hb : nh = ADDR_BCAST
      · left
        simp only [Arp.transmit, if_neg hz, if_pos hb, Option.some.injEq, Prod.mk.injEq] at h
        exact ⟨hb, h.1.symm, h.2.symm⟩
      · right
        cases hl : lookupA s.cache_ nh with
        | some e =>
          left
          simp only [Arp.transmit, if_neg hz, if_neg hb, hl, Option.some.injEq, Prod.mk.injEq] at h
          exact ⟨hb, e, rfl, h.1.symm, h.2.symm⟩
        | none =>
          right
          refine ⟨hb, rfl, ?_⟩
          simp only [Arp.transmit, if_neg hz, if_neg hb, hl, Option.some.injEq] at h
          unfold Arp.await_resolution at h
          cases hw : lookupA s.waiting_packets_ nh with
          | some q =>
            left
            rw [hw] at h
            simp only [Prod.mk.injEq] at h
            exact ⟨q, rfl, h.1.symm, h.2.symm⟩
          | none =>
            right
            rw [hw] at h
            simp only [Arp.arp_resolve, Prod.mk.injEq] at h
            exact ⟨rfl, h.1.symm, h.2.symm⟩

theorem resolve_fold (l : List (Nat × List Packet)) :
    ∀ (s : Arp) (acc : List Out),
      ∃ n outs,
        l.foldl (fun acc2 kv =>
          let r2 := Arp.arp_resolve acc2.1 kv.1
          (r2.1, acc2.2 ++ r2.2)) (s, acc) = ({ s with requests_tx_ := n }, acc ++ outs) ∧
        (∀ o ∈ outs, ∃ hd d, o = Out.arp hd d ∧ hd.opcode = H_request) := by
  induction l with
  | nil =>
    intro s acc
    exact ⟨s.requests_tx_, [], by simp, by simp⟩
  | cons kv rest ih =>
    intro s acc
    obtain ⟨n, outs, heq, hout⟩ :=
      ih { s with requests_tx_ := s.requests_tx_ + 1 }
        (acc ++ [Out.arp ⟨H_request, s.mac_, s.ip_addr, MAC_BROADCAST, kv.1⟩ MAC_BROADCAST])
    refine ⟨n, Out.arp ⟨H_request, s.mac_, s.ip_addr, MAC_BROADCAST, kv.1⟩ MAC_BROADCAST :: outs, ?_, ?_⟩
    · simpa [Arp.arp_resolve] using heq
    · intro o ho
      rcases List.mem_cons.mp ho with ho | ho
      · exact ⟨_, _, ho, rfl⟩
      · exact hout o ho

theorem resolve_waiting_empty (s : Arp) (h : s.waiting_packets_ = []) :
    Arp.resolve_waiting s = ({ s with resolve_timer_running := false }, []) := by
  simp [Arp.resolve_waiting, h]

theorem resolve_waiting_nonempty (s : Arp) (h : s.waiting_packets_ ≠ []) :
    ∃ n outs,
      Arp.resolve_waiting s =
        ({ s with requests_tx_ := n, resolve_timer_running := true }, outs) ∧
      (∀ o ∈ outs, ∃ hd d, o = Out.arp hd d ∧ hd.opcode = H_request) := by
  obtain ⟨n, outs, heq, hout⟩ := resolve_fold s.waiting_packets_ s []
  refine ⟨n, outs, ?_, hout⟩
  have hne : ¬ s.waiting_packets_.isEmpty := by
    cases hw : s.waiting_packets_ with
    | nil => exact absurd hw h
    | cons a l => simp [hw]
  simp [Arp.resolve_waiting, hne, heq]

theorem flush_expired_shape (s : Arp) :
    ∃ c, Arp.flush_expired s =
        { s with cache_ := c, flush_timer_running := if c.isEmpty then s.flush_timer_running else true } ∧
      (∀ ip, (lookupA c ip).isSome → (lookupA s.cache_ ip).isSome) ∧
      ((s.cache_.map Prod.fst).Nodup → (c.map Prod.fst).Nodup) := by
  unfold Arp.flush_expired
  set l := (s.cache_.filter
    (fun ent => Entry.expired ent.2 s.now s.flush_interval_)).map (fun ent => ent.1) with hl
  set c := l.foldl (fun c ip => eraseA c ip) s.cache_ with hc
  have hmono : ∀ (ll : List Nat) (m : List (Nat × Entry)) (ip : Nat),
      (lookupA (ll.foldl (fun c2 i => eraseA c2 i) m) ip).isSome → (lookupA m ip).isSome := by
    intro ll
    induction ll with
    | nil => intro m ip h; exact h
    | cons a tl ih =>
      intro m ip h
      have h2 := ih (eraseA m a) ip h
      by_cases hip : ip = a
      · subst hip
        rw [lookupA_eraseA_self] at h2
        simp at h2
      · rwa [lookupA_eraseA_ne _ _ _ hip] at h2
  have hnd : ∀ (ll : List Nat) (m : List (Nat × Entry)),
      (m.map Prod.fst).Nodup → ((ll.foldl (fun c2 i => eraseA c2 i) m).map Prod.fst).Nodup := by
    intro ll
    induction ll with
    | nil => intro m h; exact h
    | cons a tl ih => intro m h; exact ih (eraseA m a) (eraseA_keys_nodup m a h)
  by_cases he : c.isEmpty
  · refine ⟨c, ?_, fun ip => hmono l s.cache_ ip, fun h => hnd l s.cache_ h⟩
    simp [he]
  · refine ⟨c, ?_, fun ip => hmono l s.cache_ ip, fun h => hnd l s.cache_ h⟩
    simp [he]

theorem dispatch_master (hdr : header) (s2 : Arp) (outs1 : List Out) (s' : Arp)
    (outs : List Out)
    (h : (if hdr.opcode = H_request then
            let s3 := { s2 with requests_rx_ := s2.requests_rx_ + 1 }
            if hdr.dipaddr = s3.ip_addr then
              let r := Arp.arp_respond s3 hdr s3.ip_addr
              some (r.1, outs1 ++ r.2)
            else
              match s3.proxy_ with
              | some prx =>
                if prx hdr.dipaddr then
                  let r := Arp.arp_respond s3 hdr hdr.dipaddr
                  some (r.1, outs1 ++ r.2)
                else some (s3, outs1)
              | none => some (s3, outs1)
          else if hdr.opcode = H_reply then
            some ({ s2 with replies_rx_ := s2.replies_rx_ + 1 }, outs1)
          else
            some (s2, outs1)) = some (s', outs)) :
    ∃ outs2, outs = outs1 ++ outs2 ∧
      s'.cache_ = s2.cache_ ∧ s'.waiting_packets_ = s2.waiting_packets_ ∧
      s'.flush_timer_running = s2.flush_timer_running ∧
      s'.resolve_timer_running = s2.resolve_timer_running ∧
      s'.requests_tx_ = s2.requests_tx_ ∧ s'.ip_addr = s2.ip_addr ∧ s'.mac_ = s2.mac_ ∧
      s'.proxy_ = s2.proxy_ ∧ s'.now = s2.now ∧
      ((hdr.opcode = H_request ∧ s'.requests_rx_ = s2.requests_rx_ + 1 ∧
          s'.replies_rx_ = s2.replies_rx_ ∧
          ((hdr.dipaddr = s2.ip_addr ∧
              outs2 = [Out.arp ⟨H_reply, s2.mac_, s2.ip_addr, hdr.shwaddr, hdr.sipaddr⟩ hdr.shwaddr] ∧
              s'.replies_tx_ = s2.replies_tx_ + 1) ∨
           (hdr.dipaddr ≠ s2.ip_addr ∧ (∃ prx, s2.proxy_ = some prx ∧ prx hdr.dipaddr = true) ∧
              outs2 = [Out.arp ⟨H_reply, s2.mac_, hdr.dipaddr, hdr.shwaddr, hdr.sipaddr⟩ hdr.shwaddr] ∧
              s'.replies_tx_ = s2.replies_tx_ + 1) ∨
           (hdr.dipaddr ≠ s2.ip_addr ∧
              (s2.proxy_ = none ∨ ∃ prx, s2.proxy_ = some prx ∧ prx hdr.dipaddr = false) ∧
              outs2 = [] ∧ s'.replies_tx_ = s2.replies_tx_))) ∨
       (hdr.opcode ≠ H_request ∧ hdr.opcode = H_reply ∧ outs2 = [] ∧
          s'.requests_rx_ = s2.requests_rx_ ∧ s'.replies_rx_ = s2.replies_rx_ + 1 ∧
          s'.replies_tx_ = s2.replies_tx_) ∨
       (hdr.opcode ≠ H_request ∧ hdr.opcode ≠ H_reply ∧ outs2 = [] ∧
          s'.requests_rx_ = s2.requests_rx_ ∧ s'.replies_rx_ = s2.replies_rx_ ∧
          s'.replies_tx_ = s2.replies_tx_)) := by
  by_cases hop : hdr.opcode = H_request
  · by_cases hdip : hdr.dipaddr = s2.ip_addr
    · simp only [if_pos hop, if_pos hdip, Option.some.injEq, Prod.mk.injEq] at h
      obtain ⟨h1, h2⟩ := h
      subst h1
      subst h2
      refine ⟨_, rfl, rfl, rfl, rfl, rfl, rfl, rfl, rfl, rfl, rfl, ?_⟩
      exact Or.inl ⟨hop, rfl, rfl, Or.inl ⟨hdip, rfl, rfl⟩⟩
    · cases hpx : s2.proxy_ with
      | none =>
        simp only [if_pos hop, if_neg hdip, hpx, Option.some.injEq, Prod.mk.injEq] at h
        obtain ⟨h1, h2⟩ := h
        subst h1
        subst h2
        refine ⟨[], by simp, rfl, rfl, rfl, rfl, rfl, rfl, rfl, rfl, rfl, ?_⟩
        exact Or.inl ⟨hop, rfl, rfl, Or.inr (Or.inr ⟨hdip, Or.inl rfl, rfl, rfl⟩)⟩
      | some prx =>
        by_cases hpv : prx hdr.dipaddr
        · simp only [if_pos hop, if_neg hdip, hpx, if_pos hpv, Option.some.injEq,
            Prod.mk.injEq] at h
          obtain ⟨h1, h2⟩ := h
          subst h1
          subst h2
          refine ⟨_, rfl, rfl, rfl, rfl, rfl, rfl, rfl, rfl, rfl, rfl, ?_⟩
          exact Or.inl ⟨hop, rfl, rfl, Or.inr (Or.inl ⟨hdip, ⟨prx, rfl, hpv⟩, rfl, rfl⟩)⟩
        · simp only [if_pos hop, if_neg hdip, hpx, if_neg hpv, Option.some.injEq,
            Prod.mk.injEq] at h
          obtain ⟨h1, h2⟩ := h
          subst h1
          subst h2
          refine ⟨[], by simp, rfl, rfl, rfl, rfl, rfl, rfl, rfl, rfl, rfl, ?_⟩
          refine Or.inl ⟨hop, rfl, rfl, Or.inr (Or.inr ⟨hdip, Or.inr ⟨prx, rfl, ?_⟩, rfl, rfl⟩)⟩
          simpa using hpv
  · by_cases hrep : hdr.opcode = H_reply
    · simp only [if_neg hop, if_pos hrep, Option.some.injEq, Prod.mk.injEq] at h
      obtain ⟨h1, h2⟩ := h
      subst h1
      subst h2
      refine ⟨[], by simp, rfl, rfl, rfl, rfl, rfl, rfl, rfl, rfl, rfl, ?_⟩
      exact Or.inr (Or.inl ⟨hop, hrep, rfl, rfl, rfl, rfl⟩)
    · simp only [if_neg hop, if_neg hrep, Option.some.injEq, Prod.mk.injEq] at h
      obtain ⟨h1, h2⟩ := h
      subst h1
      subst h2
      refine ⟨[], by simp, rfl, rfl, rfl, rfl, rfl, rfl, rfl, rfl, rfl, ?_⟩
      exact Or.inr (Or.inr ⟨hop, hrep, rfl, rfl, rfl, rfl⟩)

theorem receive_master (s : Arp) (f : RecvFrame) (s' : Arp) (outs : List Out)
    (h : Arp.receive s f = some (s', outs)) :
    ∃ outs1 outs2,
      outs = outs1 ++ outs2 ∧
      s'.cache_ = (Arp.cache s f.hdr.sipaddr f.hdr.shwaddr).cache_ ∧
      s'.flush_timer_running = (Arp.cache s f.hdr.sipaddr f.hdr.shwaddr).flush_timer_running ∧
      s'.waiting_packets_ = eraseA s.waiting_packets_ f.hdr.sipaddr ∧
      s'.resolve_timer_running = s.resolve_timer_running ∧
      s'.requests_tx_ = s.requests_tx_ ∧
      s'.ip_addr = s.ip_addr ∧ s'.mac_ = s.mac_ ∧ s'.proxy_ = s.proxy_ ∧ s'.now = s.now ∧
      (match lookupA s.waiting_packets_ f.hdr.sipaddr with
       | some chain =>
           ∃ d, outs1 = [Out.ip4 chain d] ∧ (f.hdr.sipaddr ≠ ADDR_BCAST → d = f.hdr.shwaddr)
       | none => outs1 = []) ∧
      ((f.hdr.opcode = H_request ∧ s'.requests_rx_ = s.requests_rx_ + 1 ∧
          s'.replies_rx_ = s.replies_rx_ ∧
          ((f.hdr.dipaddr = s.ip_addr ∧
              outs2 = [Out.arp ⟨H_reply, s.mac_, s.ip_addr, f.hdr.shwaddr, f.hdr.sipaddr⟩ f.hdr.shwaddr] ∧
              s'.replies_tx_ = s.replies_tx_ + 1) ∨
           (f.hdr.dipaddr ≠ s.ip_addr ∧ (∃ prx, s.proxy_ = some prx ∧ prx f.hdr.dipaddr = true) ∧
              outs2 = [Out.arp ⟨H_reply, s.mac_, f.hdr.dipaddr, f.hdr.shwaddr, f.hdr.sipaddr⟩ f.hdr.shwaddr] ∧
              s'.replies_tx_ = s.replies_tx_ + 1) ∨
           (f.hdr.dipaddr ≠ s.ip_addr ∧
              (s.proxy_ = none ∨ ∃ prx, s.proxy_ = some prx ∧ prx f.hdr.dipaddr = false) ∧
              outs2 = [] ∧ s'.replies_tx_ = s.replies_tx_))) ∨
       (f.hdr.opcode ≠ H_request ∧ f.hdr.opcode = H_reply ∧ outs2 = [] ∧
          s'.requests_rx_ = s.requests_rx_ ∧ s'.replies_rx_ = s.replies_rx_ + 1 ∧
          s'.replies_tx_ = s.replies_tx_) ∨
       (f.hdr.opcode ≠ H_request ∧ f.hdr.opcode ≠ H_reply ∧ outs2 = [] ∧
          s'.requests_rx_ = s.requests_rx_ ∧ s'.replies_rx_ = s.replies_rx_ ∧
          s'.replies_tx_ = s.replies_tx_)) := by
  obtain ⟨c, b, hceq, hlook, hlookne, hnodup, hcne⟩ := cache_shape s f.hdr.sipaddr f.hdr.shwaddr
  simp only [Arp.receive, hceq] at h
  cases hw : lookupA s.waiting_packets_ f.hdr.sipaddr with
  | none =>
    rw [show lookupA ({ s with cache_ := c, flush_timer_running := b } : Arp).waiting_packets_ f.hdr.sipaddr = none from hw] at h
    obtain ⟨outs2, houts, e1, e2, e3, e4, e5, e6, e7, e8, e9, hdisp⟩ :=
      dispatch_master f.hdr _ [] s' outs h
    refine ⟨[], outs2, by simpa using houts, ?_, ?_, ?_, ?_, ?_, ?_, ?_, ?_, ?_, by simp, ?_⟩
    · rw [e1, hceq]
    · rw [e3, hceq]
    · rw [e2]
      exact (eraseA_of_lookupA_none _ _ hw).symm
    · rw [e4]
    · rw [e5]
    · rw [e6]
    · rw [e7]
    · rw [e8]
    · rw [e9]
    · exact hdisp
  | some chain =>
    rw [show lookupA ({ s with cache_ := c, flush_timer_running := b } : Arp).waiting_packets_ f.hdr.sipaddr = some chain from hw] at h
    cases chain with
    | nil => simp [Arp.transmit] at h
    | cons p rest =>
      by_cases hz : p.size = 0
      · simp [Arp.transmit, hz] at h
      · by_cases hbc : f.hdr.sipaddr = ADDR_BCAST
        · simp only [Arp.transmit, hz, hbc, if_true, if_false, if_neg, if_pos,
            ite_true, ite_false, eq_self_iff_true, not_false_iff] at h
          obtain ⟨outs2, houts, e1, e2, e3, e4, e5, e6, e7, e8, e9, hdisp⟩ :=
            dispatch_master f.hdr _ _ s' outs h
          refine ⟨[Out.ip4 (p :: rest) MAC_BROADCAST], outs2, houts, ?_, ?_, ?_, ?_, ?_, ?_, ?_, ?_, ?_, ?_, ?_⟩
          · rw [hceq]; exact e1
          · rw [hceq]; exact e3
          · exact e2.trans (by rw [hbc])
          · exact e4
          · exact e5
          · exact e6
          · exact e7
          · exact e8
          · exact e9
          · exact ⟨MAC_BROADCAST, rfl, fun hne => absurd hbc hne⟩
          · exact hdisp
        · simp only [Arp.transmit, hz, hbc, hlook, if_true, if_false, ite_true, ite_false,
            not_false_iff] at h
          obtain ⟨outs2, houts, e1, e2, e3, e4, e5, e6, e7, e8, e9, hdisp⟩ :=
            dispatch_master f.hdr _ _ s' outs h
          refine ⟨[Out.ip4 (p :: rest) f.hdr.shwaddr], outs2, houts, ?_, ?_, ?_, ?_, ?_, ?_, ?_, ?_, ?_, ?_, ?_⟩
          · rw [hceq]; exact e1
          · rw [hceq]; exact e3
          · exact e2
          · exact e4
          · exact e5
          · exact e6
          · exact e7
          · exact e8
          · exact e9
          · exact ⟨f.hdr.shwaddr, rfl, fun _ => rfl⟩
          · exact hdisp

theorem ne_nil_of_lookupA_some {β : Type} (m : List (Nat × β)) (k : Nat) (v : β)
    (h : lookupA m k = some v) : m ≠ [] := by
  intro hn
  subst hn
  simp at h

theorem inv_init (ip : IPAddr) (mac : MACAddr) (fi : Nat) (prx : Option (IPAddr → Bool)) :
    Inv (Arp.init ip mac fi prx) := by
  refine ⟨by simp [Arp.init], by simp [Arp.init], by simp [Arp.init], by simp [Arp.init],
    by simp [Arp.init]⟩

theorem inv_step (s : Arp) (e : Event) (s' : Arp) (outs : List Out)
    (hs : Inv s) (h : step s e = some (s', outs)) : Inv s' := by
  obtain ⟨hflush, hres, hbw, hndc, hndw⟩ := hs
  cases e with
  | recv f =>
    obtain ⟨outs1, outs2, houts, hc, hf, hwp, hrt, hqtx, hip, hmac, hpx, hnow, hmatch, hdisp⟩ :=
      receive_master s f s' outs h
    obtain ⟨c, b, hceq, hlook, hlookne, hnd, hcne⟩ := cache_shape s f.hdr.sipaddr f.hdr.shwaddr
    refine ⟨?_, ?_, ?_, ?_, ?_⟩
    · rw [hc, hf]
      exact cache_flush_iff s f.hdr.sipaddr f.hdr.shwaddr hflush
    · intro hne
      rw [hrt]
      apply hres
      intro hnil
      rw [hwp, hnil] at hne
      exact hne rfl
    · rw [hwp]
      by_cases hb : ADDR_BCAST = f.hdr.sipaddr
      · rw [hb, lookupA_eraseA_self]
      · rw [lookupA_eraseA_ne _ _ _ hb]
        exact hbw
    · rw [hc, hceq]
      exact hnd hndc
    · rw [hwp]
      exact eraseA_keys_nodup _ _ hndw
  | xmit chain nh =>
    rcases transmit_some s chain nh s' outs h with
      ⟨hb, hs', ho⟩ | ⟨hb, ee, hl, hs', ho⟩ | ⟨hb, hl, hcase⟩
    · subst hs'
      exact ⟨hflush, hres, hbw, hndc, hndw⟩
    · subst hs'
      exact ⟨hflush, hres, hbw, hndc, hndw⟩
    · have hbne : ADDR_BCAST ≠ nh := fun hh => hb hh.symm
      rcases hcase with ⟨q, hq, hs', ho⟩ | ⟨hq, hs', ho⟩
      · subst hs'
        refine ⟨hflush, ?_, ?_, hndc, ?_⟩
        · intro _
          exact hres (ne_nil_of_lookupA_some _ _ _ hq)
        · simpa [lookupA_insertA_ne _ _ _ _ hbne] using hbw
        · exact insertA_keys_nodup _ _ _ hndw
      · subst hs'
        refine ⟨hflush, fun _ => rfl, ?_, hndc, ?_⟩
        · simpa [lookupA_insertA_ne _ _ _ _ hbne] using hbw
        · exact insertA_keys_nodup _ _ _ hndw
  | resolveTick =>
    by_cases hr : s.resolve_timer_running
    · simp only [step, hr, if_true, Option.some.injEq] at h
      by_cases hwq : s.waiting_packets_ = []
      · rw [resolve_waiting_empty _ (by simpa using hwq)] at h
        injection h with h1 h2
        rw [← h1]
        exact ⟨hflush, by simp [hwq], hbw, hndc, hndw⟩
      · obtain ⟨n, outs0, heq, _⟩ := resolve_waiting_nonempty
          { s with resolve_timer_running := false } (by simpa using hwq)
        rw [heq] at h
        injection h with h1 h2
        rw [← h1]
        exact ⟨hflush, fun _ => rfl, hbw, hndc, hndw⟩
    · simp [step, hr] at h
  | flushTick =>
    by_cases hfr : s.flush_timer_running
    · simp only [step, hfr, if_true, Option.some.injEq, Prod.mk.injEq] at h
      obtain ⟨c, hceq2, hmono, hnd2⟩ := flush_expired_shape { s with flush_timer_running := false }
      rw [hceq2] at h
      rw [← h.1]
      refine ⟨?_, ?_, hbw, hnd2 hndc, hndw⟩
      · by_cases hce : c.isEmpty
        · have : c = [] := by simpa using hce
          simp [hce, this]
        · have : c ≠ [] := by simpa using hce
          simp [hce, this]
      · intro hne
        exact hres hne
    · simp [step, hfr] at h
  | advance d =>
    simp only [step, Option.some.injEq, Prod.mk.injEq] at h
    rw [← h.1]
    exact ⟨hflush, hres, hbw, hndc, hndw⟩

theorem reachable_inv (s : Arp) (h : Reachable s) : Inv s := by
  induction h with
  | init ip mac fi prx => exact inv_init ip mac fi prx
  | step s e s2 outs hr heq ih => exact inv_step s e s2 outs ih heq

/-! ### Claim theorems -/

/-- C1: for every inbound ARP frame processed by `receive`, the cache is
updated with the frame's sender binding before any opcode-specific handling,
so that immediately after `receive` returns a cache lookup of the frame's
sender IPv4 yields the frame's sender MAC; this holds for requests, replies
and all other opcodes alike. -/
theorem C1_receive_learns_sender (s : Arp) (f : RecvFrame) (s' : Arp) (outs : List Out)
    (h : Arp.receive s f = some (s', outs)) :
    (lookupA s'.cache_ f.hdr.sipaddr).map Entry.mac = some f.hdr.shwaddr := by
  obtain ⟨outs1, outs2, houts, hc, hf, hwp, hrt, hqtx, hip, hmac, hpx, hnow, hmatch, hdisp⟩ :=
    receive_master s f s' outs h
  obtain ⟨c, b, hceq, hlook, hlookne, hnd, hcne⟩ := cache_shape s f.hdr.sipaddr f.hdr.shwaddr
  rw [hc, hceq]
  simp [hlook]

/-- Witness for C1 at a concrete reply frame from IPv4 5 with MAC 77. -/
theorem C1_witness :
    Arp.receive wInit (wFrame H_reply 5 77 10) = some w1 ∧
    (lookupA w1.1.cache_ 5).map Entry.mac = some 77 :=
  ⟨rfl, C1_receive_learns_sender wInit (wFrame H_reply 5 77 10) w1.1 w1.2 rfl⟩

/-- C2: when `receive` processes an ARP frame of any opcode with sender IPv4
`ip`, every packet previously enqueued for `ip` is handed to the link-layer
sink with destination MAC = the learned sender MAC and Ethertype IPv4, in
enqueue order (the whole chain, first), before `receive` returns, and the
pending entry for `ip` is removed; a pending entry is never removed by a
timer tick or by the passage of time alone. -/
theorem C2_receive_drains_pending (s : Arp) (hr : Reachable s) (f : RecvFrame)
    (s' : Arp) (outs : List Out) (h : Arp.receive s f = some (s', outs)) :
    (∀ chain, lookupA s.waiting_packets_ f.hdr.sipaddr = some chain →
       outs.take 1 = [Out.ip4 chain f.hdr.shwaddr]) ∧
    lookupA s'.waiting_packets_ f.hdr.sipaddr = none ∧
    (∀ (e : Event) (s2 : Arp) (outs2 : List Out),
       (Event.isTick e = true ∨ e = Event.flushTick ∨ Event.isAdvance e = true) →
       step s e = some (s2, outs2) → s2.waiting_packets_ = s.waiting_packets_) := by
  obtain ⟨outs1, outs2, houts, hc, hf, hwp, hrt, hqtx, hip, hmac, hpx, hnow, hmatch, hdisp⟩ :=
    receive_master s f s' outs h
  obtain ⟨hflush, hres, hbw, hndc, hndw⟩ := reachable_inv s hr
  refine ⟨?_, ?_, ?_⟩
  · intro chain hch
    have hsb : f.hdr.sipaddr ≠ ADDR_BCAST := by
      intro hb
      rw [hb, hbw] at hch
      cases hch
    rw [hch] at hmatch
    obtain ⟨d, ho1, hd⟩ := hmatch
    rw [houts, ho1, hd hsb]
    rfl
  · rw [hwp]
    exact lookupA_eraseA_self _ _
  · intro e s2 outs2 he hstep
    cases e with
    | recv f2 => simp [Event.isTick, Event.isAdvance] at he
    | xmit chain2 nh2 => simp [Event.isTick, Event.isAdvance] at he
    | resolveTick =>
      by_cases hrr : s.resolve_timer_running
      · simp only [step, hrr, if_true, Option.some.injEq] at hstep
        by_cases hwq : s.waiting_packets_ = []
        · rw [resolve_waiting_empty _ (by simpa using hwq)] at hstep
          injection hstep with h1 h2
          rw [← h1, hwq]
        · obtain ⟨n, outs0, heq, _⟩ := resolve_waiting_nonempty
            { s with resolve_timer_running := false } (by simpa using hwq)
          rw [heq] at hstep
          injection hstep with h1 h2
          rw [← h1]
      · simp [step, hrr] at hstep
    | flushTick =>
      by_cases hfr : s.flush_timer_running
      · simp only [step, hfr, if_true, Option.some.injEq, Prod.mk.injEq] at hstep
        obtain ⟨c, hceq2, hmono, hnd2⟩ :=
          flush_expired_shape { s with flush_timer_running := false }
        rw [hceq2] at hstep
        rw [← hstep.1]
      · simp [step, hfr] at hstep
    | advance d =>
      simp only [step, Option.some.injEq, Prod.mk.injEq] at hstep
      rw [← hstep.1]

/-- Witness for C2: a reply from 9 drains the packet queued for 9 in `wPend`. -/
theorem C2_witness :
    Reachable wPend ∧
    Arp.receive wPend (wFrame H_reply 9 77 10) = some w2 ∧
    w2.2.take 1 = [Out.ip4 [⟨5, 1⟩] 77] ∧
    lookupA w2.1.waiting_packets_ 9 = none := by
  have hreach : Reachable wPend :=
    Reachable.step wInit (Event.xmit [⟨5, 1⟩] 9) wPend
      [Out.arp ⟨H_request, 2, 10, MAC_BROADCAST, 9⟩ MAC_BROADCAST]
      (Reachable.init 10 2 300 none) rfl
  have hmain := C2_receive_drains_pending wPend hreach (wFrame H_reply 9 77 10) w2.1 w2.2 rfl
  exact ⟨hreach, rfl, hmain.1 [⟨5, 1⟩] rfl, hmain.2.1⟩

/-- C3: `transmit` with a non-empty, non-zero-size packet sends once to the
link broadcast MAC with Ethertype IPv4 when the next hop is the IPv4
broadcast address, leaving the state untouched; on a cache hit it sends once
to the cached MAC with Ethertype IPv4; on a cache miss the packet is appended
to the pending queue, no IPv4 frame is emitted, the resolve timer is running
afterwards, the cache is untouched, and on a first miss exactly one broadcast
ARP request for the next hop is emitted.  A zero-size packet violates the
precondition and aborts (`none`), not silently. -/
theorem C3_transmit (s : Arp) (hr : Reachable s) (p : Packet) (rest : List Packet)
    (nh : IPAddr) :
    (p.size = 0 → Arp.transmit s (p :: rest) nh = none) ∧
    (p.size ≠ 0 → nh = ADDR_BCAST →
       Arp.transmit s (p :: rest) nh = some (s, [Out.ip4 (p :: rest) MAC_BROADCAST])) ∧
    (p.size ≠ 0 → nh ≠ ADDR_BCAST → ∀ e, lookupA s.cache_ nh = some e →
       Arp.transmit s (p :: rest) nh = some (s, [Out.ip4 (p :: rest) e.mac])) ∧
    (p.size ≠ 0 → nh ≠ ADDR_BCAST → lookupA s.cache_ nh = none →
       ∀ s' outs, Arp.transmit s (p :: rest) nh = some (s', outs) →
         lookupA s'.waiting_packets_ nh =
           some ((lookupA s.waiting_packets_ nh).getD [] ++ (p :: rest)) ∧
         s'.cache_ = s.cache_ ∧
         s'.resolve_timer_running = true ∧
         (∀ o ∈ outs, Out.eth o ≠ Ethertype.IP4) ∧
         (lookupA s.waiting_packets_ nh = none →
            outs = [Out.arp ⟨H_request, s.mac_, s.ip_addr, MAC_BROADCAST, nh⟩ MAC_BROADCAST])) := by
  obtain ⟨hflush, hres, hbw, hndc, hndw⟩ := reachable_inv s hr
  refine ⟨?_, ?_, ?_, ?_⟩
  · intro hz
    simp [Arp.transmit, hz]
  · intro hz hb
    simp [Arp.transmit, hz, hb]
  · intro hz hb e hl
    simp [Arp.transmit, hz, hb, hl]
  · intro hz hb hl s' outs htr
    rcases transmit_some s (p :: rest) nh s' outs htr with
      ⟨hb2, _, _⟩ | ⟨_, e2, hl2, _, _⟩ | ⟨_, _, hcase⟩
    · exact absurd hb2 hb
    · rw [hl] at hl2
      cases hl2
    · rcases hcase with ⟨q, hq, hs', ho⟩ | ⟨hq, hs', ho⟩
      · subst hs'
        subst ho
        refine ⟨?_, rfl, ?_, by simp, ?_⟩
        · rw [hq]
          simpa using lookupA_insertA_self s.waiting_packets_ nh (q ++ (p :: rest))
        · exact hres (ne_nil_of_lookupA_some _ _ _ hq)
        · intro hq2
          rw [hq2] at hq
          cases hq
      · subst hs'
        subst ho
        refine ⟨?_, rfl, rfl, ?_, fun _ => rfl⟩
        · rw [hq]
          simpa using lookupA_insertA_self s.waiting_packets_ nh (p :: rest)
        · intro o ho
          rcases List.mem_singleton.mp ho with rfl
          simp [Out.eth]

/-- Witness for C3: the broadcast next hop on the fresh module, and the
zero-size contract violation. -/
theorem C3_witness :
    Arp.transmit wInit [⟨5, 1⟩] ADDR_BCAST = some (wInit, [Out.ip4 [⟨5, 1⟩] MAC_BROADCAST]) ∧
    Arp.transmit wInit [⟨0, 1⟩] 9 = none :=
  ⟨(C3_transmit wInit (Reachable.init 10 2 300 none) ⟨5, 1⟩ [] ADDR_BCAST).2.1
      (by decide) rfl,
   (C3_transmit wInit (Reachable.init 10 2 300 none) ⟨0, 1⟩ [] 9).1 rfl⟩

/-- C4: for every received ARP request, `requests_rx_` is incremented; if the
target IPv4 equals the local IPv4, exactly one ARP reply is emitted with
sender IPv4 = local IPv4, sender MAC = local MAC, destination link address =
the requester's MAC, Ethertype ARP, and `replies_tx_` is incremented; else if
an installed proxy predicate accepts the target, the same reply is emitted
with sender IPv4 = the request's target IPv4; otherwise no ARP frame is
produced and `replies_tx_` is unchanged. -/
theorem C4_request_dispatch (s : Arp) (f : RecvFrame) (s' : Arp) (outs : List Out)
    (hop : f.hdr.opcode = H_request) (h : Arp.receive s f = some (s', outs)) :
    s'.requests_rx_ = s.requests_rx_ + 1 ∧
    (f.hdr.dipaddr = s.ip_addr →
       outs.filter isArpOut =
         [Out.arp ⟨H_reply, s.mac_, s.ip_addr, f.hdr.shwaddr, f.hdr.sipaddr⟩ f.hdr.shwaddr] ∧
       s'.replies_tx_ = s.replies_tx_ + 1) ∧
    (f.hdr.dipaddr ≠ s.ip_addr → ∀ prx, s.proxy_ = some prx → prx f.hdr.dipaddr = true →
       outs.filter isArpOut =
         [Out.arp ⟨H_reply, s.mac_, f.hdr.dipaddr, f.hdr.shwaddr, f.hdr.sipaddr⟩ f.hdr.shwaddr] ∧
       s'.replies_tx_ = s.replies_tx_ + 1) ∧
    (f.hdr.dipaddr ≠ s.ip_addr →
       (s.proxy_ = none ∨ ∃ prx, s.proxy_ = some prx ∧ prx f.hdr.dipaddr = false) →
       outs.filter isArpOut = [] ∧ s'.replies_tx_ = s.replies_tx_) := by
  obtain ⟨outs1, outs2, houts, hc, hf, hwp, hrt, hqtx, hip, hmac, hpx, hnow, hmatch, hdisp⟩ :=
    receive_master s f s' outs h
  have ho1 : outs1.filter isArpOut = [] := by
    cases hw : lookupA s.waiting_packets_ f.hdr.sipaddr with
    | none =>
      rw [hw] at hmatch
      rw [hmatch]
      rfl
    | some chain =>
      rw [hw] at hmatch
      obtain ⟨d, ho, _⟩ := hmatch
      rw [ho]
      rfl
  rcases hdisp with ⟨_, hrx, hrr, hsub⟩ | ⟨hne, _, _, _, _, _⟩ | ⟨hne, _, _, _, _, _⟩
  · refine ⟨hrx, ?_, ?_, ?_⟩
    · intro hdip
      rcases hsub with ⟨_, ho2, htx⟩ | ⟨hne, _, _, _⟩ | ⟨hne, _, _, _⟩
      · rw [houts, ho2, List.filter_append, ho1]
        exact ⟨by simp [isArpOut], htx⟩
      · exact absurd hdip hne
      · exact absurd hdip hne
    · intro hdip prx hprx hpv
      rcases hsub with ⟨hdip2, _, _⟩ | ⟨_, ⟨prx0, hprx0, hpv0⟩, ho2, htx⟩ | ⟨_, hpcase, _, _⟩
      · exact absurd hdip2 hdip
      · rw [houts, ho2, List.filter_append, ho1]
        exact ⟨by simp [isArpOut], htx⟩
      · rcases hpcase with hn0 | ⟨prx1, hprx1, hpv1⟩
        · rw [hprx] at hn0
          cases hn0
        · rw [hprx] at hprx1
          injection hprx1 with hpe
          rw [← hpe] at hpv1
          rw [hpv] at hpv1
          cases hpv1
    · intro hdip hpcase
      rcases hsub with ⟨hdip2, _, _⟩ | ⟨_, ⟨prx0, hprx0, hpv0⟩, _, _⟩ | ⟨_, _, ho2, htx⟩
      · exact absurd hdip2 hdip
      · rcases hpcase with hn | ⟨prx1, hprx1, hpv1⟩
        · rw [hprx0] at hn
          cases hn
        · rw [hprx0] at hprx1
          injection hprx1 with hpe
          rw [← hpe] at hpv1
          rw [hpv0] at hpv1
          cases hpv1
      · rw [houts, ho2, List.filter_append, ho1]
        exact ⟨rfl, htx⟩
  · exact absurd hop hne
  · exact absurd hop hne

/-- Witness for C4: a request from 5 targeting the local IPv4 10. -/
theorem C4_witness :
    Arp.receive wInit (wFrame H_request 5 77 10) = some w4 ∧
    w4.1.requests_rx_ = wInit.requests_rx_ + 1 ∧
    w4.2.filter isArpOut = [Out.arp ⟨H_reply, 2, 10, 77, 5⟩ 77] ∧
    w4.1.replies_tx_ = wInit.replies_tx_ + 1 := by
  have h4 := C4_request_dispatch wInit (wFrame H_request 5 77 10) w4.1 w4.2 rfl rfl
  exact ⟨rfl, h4.1, (h4.2.1 rfl).1, (h4.2.1 rfl).2⟩

/-- C5 counterexample: after a transmit miss for 9 and a subsequent ARP frame
from 9, the pending queue is empty but the resolve timer is still running
(the drain in `receive` never stops it; only the next tick does), so the
claimed "retry timer running iff pending queue non-empty" fails in a
reachable state. -/
theorem C5_counterexample :
    Reachable w2.1 ∧ w2.1.waiting_packets_ = [] ∧ w2.1.resolve_timer_running = true := by
  have h1 : Reachable wPend :=
    Reachable.step wInit (Event.xmit [⟨5, 1⟩] 9) wPend
      [Out.arp ⟨H_request, 2, 10, MAC_BROADCAST, 9⟩ MAC_BROADCAST]
      (Reachable.init 10 2 300 none) rfl
  have h2 : Reachable w2.1 :=
    Reachable.step wPend (Event.recv (wFrame H_reply 9 77 10)) w2.1 w2.2 h1 rfl
  exact ⟨h2, rfl, rfl⟩

/-- C5 amended: in every reachable state the sweeper (flush) timer is running
iff the cache is non-empty; the retry (resolve) timer is running whenever the
pending queue is non-empty, but it may also be running with an empty queue
(after a drain, until the next tick stops it). -/
theorem C5_timers_amended (s : Arp) (hr : Reachable s) :
    (s.flush_timer_running = true ↔ s.cache_ ≠ []) ∧
    (s.waiting_packets_ ≠ [] → s.resolve_timer_running = true) := by
  obtain ⟨h1, h2, _, _, _⟩ := reachable_inv s hr
  exact ⟨h1, h2⟩

/-- Witness for the amended C5 at the freshly constructed module. -/
theorem C5_witness :
    (wInit.flush_timer_running = true ↔ wInit.cache_ ≠ []) ∧
    (wInit.waiting_packets_ ≠ [] → wInit.resolve_timer_running = true) :=
  C5_timers_amended wInit (Reachable.init 10 2 300 none)

/-- C6: `receive` never checks the buffer length.  A 10-byte buffer (shorter
than the 28-byte ARP header) is parsed anyway: the sender binding read from
the out-of-bounds header is learned into the cache instead of the frame being
discarded with no state change. -/
theorem C6_short_frame_learns :
    c6f.size < 28 ∧ Arp.receive wInit c6f = some w6 ∧
    (lookupA w6.1.cache_ 5).map Entry.mac = some 7 ∧ w6.1.cache_ ≠ wInit.cache_ :=
  ⟨by decide, rfl, by decide, by decide⟩

theorem count_keys_eq_one {β : Type} (m : List (Nat × β)) (k : Nat) (v : β)
    (hnd : (m.map Prod.fst).Nodup) (h : lookupA m k = some v) :
    (m.map Prod.fst).count k = 1 := by
  have hmem : k ∈ m.map Prod.fst := by
    by_contra hmem
    rw [(lookupA_none_iff_not_mem m k).mpr hmem] at h
    cases h
  exact List.count_eq_one_of_mem hnd hmem

theorem learnRun_spec (ip : IPAddr) (mac : MACAddr) (ds : List Nat) :
    ∀ t : Arp, (t.cache_.map Prod.fst).Nodup →
      lookupA t.cache_ ip = some ⟨mac, t.now⟩ →
      lookupA (learnRun t ip mac ds).cache_ ip = some ⟨mac, t.now + ds.sum⟩ ∧
      ((learnRun t ip mac ds).cache_.map Prod.fst).Nodup := by
  induction ds with
  | nil =>
    intro t hnd hl
    simpa [learnRun] using ⟨hl, hnd⟩
  | cons d rest ih =>
    intro t hnd hl
    obtain ⟨c, b, hceq, hlook, hlookne, hndf, hcne⟩ :=
      cache_shape { t with now := t.now + d } ip mac
    have hstep : learnRun t ip mac (d :: rest) =
        learnRun (Arp.cache { t with now := t.now + d } ip mac) ip mac rest := rfl
    have hnow : (Arp.cache { t with now := t.now + d } ip mac).now = t.now + d := by
      rw [hceq]
    have hnd2 : ((Arp.cache { t with now := t.now + d } ip mac).cache_.map Prod.fst).Nodup := by
      rw [hceq]
      exact hndf hnd
    have hl2 : lookupA (Arp.cache { t with now := t.now + d } ip mac).cache_ ip =
        some ⟨mac, (Arp.cache { t with now := t.now + d } ip mac).now⟩ := by
      rw [hceq]
      exact hlook
    obtain ⟨hfin, hndfin⟩ := ih (Arp.cache { t with now := t.now + d } ip mac) hnd2 hl2
    rw [hstep]
    refine ⟨?_, hndfin⟩
    rw [hfin, hnow]
    simp [Nat.add_assoc]

/-- C7: the cache learn operation is total and keeps exactly one entry per
IPv4: on a fresh IPv4 it inserts with the current timestamp (arming the
sweeper timer if the cache was empty), on a matching MAC it only refreshes
the timestamp, on a conflicting MAC it replaces the entry; other keys are
untouched; learning the same `(ip, mac)` pair any number of times leaves
exactly one entry whose timestamp is that of the last learn. -/
theorem C7_cache_learn (s : Arp) (hr : Reachable s) (ip : IPAddr) (mac : MACAddr) :
    lookupA (Arp.cache s ip mac).cache_ ip = some ⟨mac, s.now⟩ ∧
    ((Arp.cache s ip mac).cache_.map Prod.fst).count ip = 1 ∧
    (∀ ip', ip' ≠ ip → lookupA (Arp.cache s ip mac).cache_ ip' = lookupA s.cache_ ip') ∧
    (s.cache_ = [] → (Arp.cache s ip mac).flush_timer_running = true) ∧
    (∀ ds : List Nat,
       lookupA (learnRun (Arp.cache s ip mac) ip mac ds).cache_ ip =
         some ⟨mac, s.now + ds.sum⟩ ∧
       ((learnRun (Arp.cache s ip mac) ip mac ds).cache_.map Prod.fst).count ip = 1) := by
  obtain ⟨hflush, hres, hbw, hndc, hndw⟩ := reachable_inv s hr
  obtain ⟨c, b, hceq, hlook, hlookne, hndf, hcne⟩ := cache_shape s ip mac
  have hnd2 : ((Arp.cache s ip mac).cache_.map Prod.fst).Nodup := by
    rw [hceq]
    exact hndf hndc
  have hl2 : lookupA (Arp.cache s ip mac).cache_ ip = some ⟨mac, s.now⟩ := by
    rw [hceq]
    exact hlook
  have hnow2 : (Arp.cache s ip mac).now = s.now := by
    rw [hceq]
  refine ⟨hl2, count_keys_eq_one _ _ _ hnd2 hl2, ?_, ?_, ?_⟩
  · intro ip' hip'
    rw [hceq]
    exact hlookne ip' hip'
  · intro hnil
    have hl0 : lookupA s.cache_ ip = none := by
      rw [hnil]
      rfl
    unfold Arp.cache
    rw [hl0]
    by_cases hfr : s.flush_timer_running <;> simp [hfr]
  · intro ds
    have hl3 : lookupA (Arp.cache s ip mac).cache_ ip =
        some ⟨mac, (Arp.cache s ip mac).now⟩ := by
      rw [hnow2]
      exact hl2
    obtain ⟨hfin, hndfin⟩ := learnRun_spec ip mac ds (Arp.cache s ip mac) hnd2 hl3
    rw [hnow2] at hfin
    exact ⟨hfin, count_keys_eq_one _ _ _ hndfin hfin⟩

/-- Witness for C7: learning (5, 7) on the fresh module, then twice more with
the clock advanced by 3 and 4. -/
theorem C7_witness :
    lookupA (Arp.cache wInit 5 7).cache_ 5 = some ⟨7, wInit.now⟩ ∧
    ((Arp.cache wInit 5 7).cache_.map Prod.fst).count 5 = 1 ∧
    (wInit.cache_ = [] → (Arp.cache wInit 5 7).flush_timer_running = true) ∧
    lookupA (learnRun (Arp.cache wInit 5 7) 5 7 [3, 4]).cache_ 5 =
      some ⟨7, wInit.now + [3, 4].sum⟩ := by
  have h7 := C7_cache_learn wInit (Reachable.init 10 2 300 none) 5 7
  exact ⟨h7.1, h7.2.1, h7.2.2.2.1, (h7.2.2.2.2 [3, 4]).1⟩

theorem runTrace_cons (s : Arp) (e : Event) (es : List Event) (s' : Arp) (outs : List Out)
    (h : runTrace s (e :: es) = some (s', outs)) :
    ∃ r r2, step s e = some r ∧ runTrace r.1 es = some r2 ∧ s' = r2.1 ∧ outs = r.2 ++ r2.2 := by
  simp only [runTrace] at h
  split at h
  · cases h
  · rename_i r heq
    split at h
    · cases h
    · rename_i r2 heq2
      simp only [Option.some.injEq, Prod.mk.injEq] at h
      exact ⟨r, r2, heq, heq2, h.1.symm, h.2.symm⟩

theorem C8_run (ip : IPAddr) (hip : ip ≠ ADDR_BCAST) :
    ∀ (es : List Event) (s : Arp),
      s.cache_ = [] →
      ((s.waiting_packets_ = [] ∧ s.resolve_timer_running = false) ∨
       (∃ ch, s.waiting_packets_ = [(ip, ch)] ∧ s.resolve_timer_running = true)) →
      (∀ e ∈ es, Event.isXmitTo ip e = true ∨ e = Event.resolveTick ∨
         Event.isAdvance e = true) →
      ∀ s' outs, runTrace s es = some (s', outs) →
        outs.countP (isReqFor ip) =
          es.countP Event.isTick +
            (if s.waiting_packets_ = [] ∧ es.any (Event.isXmitTo ip) = true then 1 else 0) ∧
        (∀ o ∈ outs, Out.eth o ≠ Ethertype.IP4) := by
  intro es
  induction es with
  | nil =>
    intro s hc hw hall s' outs h
    simp only [runTrace, Option.some.injEq, Prod.mk.injEq] at h
    obtain ⟨h1, h2⟩ := h
    subst h2
    simp
  | cons e rest ih =>
    intro s hc hw hall s' outs h
    have he := hall e (List.mem_cons_self e rest)
    have hall' : ∀ e2 ∈ rest, Event.isXmitTo ip e2 = true ∨ e2 = Event.resolveTick ∨
        Event.isAdvance e2 = true := fun e2 he2 => hall e2 (List.mem_cons_of_mem e he2)
    obtain ⟨r, r2, hstep, hrun, hs1, houts1⟩ := runTrace_cons s e rest s' outs h
    subst hs1
    subst houts1
    rcases he with hx | htick | hadv
    · cases e with
      | recv f2 => simp [Event.isXmitTo] at hx
      | resolveTick => simp [Event.isXmitTo] at hx
      | flushTick => simp [Event.isXmitTo] at hx
      | advance d => simp [Event.isXmitTo] at hx
      | xmit chain nh =>
        simp only [Event.isXmitTo, beq_iff_eq] at hx
        have hx2 : ip = nh := hx.symm
        subst hx2
        have htr : Arp.transmit s chain ip = some (r.1, r.2) := hstep
        rcases transmit_some s chain ip r.1 r.2 htr with
          ⟨hb, _, _⟩ | ⟨_, e2, hl2, _, _⟩ | ⟨_, _, hcase⟩
        · exact absurd hb hip
        · rw [hc] at hl2
          cases hl2
        · rcases hcase with ⟨q, hq, hr1, hr2⟩ | ⟨hq, hr1, hr2⟩
          · rcases hw with ⟨hwe, _⟩ | ⟨ch, hwp, hrt⟩
            · rw [hwe] at hq
              cases hq
            · rw [hwp] at hq
              simp only [lookupA, if_pos rfl, Option.some.injEq] at hq
              have hrw : r.1.waiting_packets_ = [(ip, q ++ chain)] := by
                rw [hr1, hwp]
                simp [insertA]
              have hic : r.1.cache_ = [] := by
                rw [hr1]
                exact hc
              have hires : r.1.resolve_timer_running = true := by
                rw [hr1]
                exact hrt
              obtain ⟨hcnt, heth⟩ :=
                ih r.1 hic (Or.inr ⟨q ++ chain, hrw, hires⟩) hall' r2.1 r2.2 hrun
              rw [if_neg (by simp [hrw])] at hcnt
              constructor
              · rw [hr2]
                simp only [List.nil_append, hcnt]
                rw [if_neg (by simp [hwp])]
                simp [List.countP_cons, Event.isTick]
              · intro o ho
                rw [hr2] at ho
                exact heth o (by simpa using ho)
          · rcases hw with ⟨hwe, hre⟩ | ⟨ch, hwp, hrt⟩
            · have hrw : r.1.waiting_packets_ = [(ip, chain)] := by
                rw [hr1, hwe]
                simp [insertA]
              have hic : r.1.cache_ = [] := by
                rw [hr1]
                exact hc
              have hires : r.1.resolve_timer_running = true := by
                rw [hr1]
              obtain ⟨hcnt, heth⟩ :=
                ih r.1 hic (Or.inr ⟨chain, hrw, hires⟩) hall' r2.1 r2.2 hrun
              rw [if_neg (by simp [hrw])] at hcnt
              constructor
              · rw [hr2]
                rw [if_pos ⟨hwe, by simp [List.any_cons, Event.isXmitTo]⟩]
                simp [List.countP_cons, List.countP_append, Event.isTick, isReqFor,
                  hcnt, H_request]
              · intro o ho
                rw [hr2] at ho
                rcases List.mem_append.mp ho with ho | ho
                · rcases List.mem_singleton.mp ho with rfl
                  simp [Out.eth]
                · exact heth o ho
            · rw [hwp] at hq
              simp [lookupA] at hq
    · subst htick
      by_cases hrr : s.resolve_timer_running
      · rcases hw with ⟨hwe, hre⟩ | ⟨ch, hwp, hrt⟩
        · rw [hre] at hrr
          simp at hrr
        · rw [show step s Event.resolveTick = some (({ s with requests_tx_ := s.requests_tx_ + 1, resolve_timer_running := true } : Arp), [Out.arp ⟨H_request, s.mac_, s.ip_addr, MAC_BROADCAST, ip⟩ MAC_BROADCAST]) from by simp [step, hrr, Arp.resolve_waiting, hwp, Arp.arp_resolve]] at hstep
          have hr0 : (({ s with requests_tx_ := s.requests_tx_ + 1, resolve_timer_running := true } : Arp), [Out.arp ⟨H_request, s.mac_, s.ip_addr, MAC_BROADCAST, ip⟩ MAC_BROADCAST]) = r :=
            Option.some.inj hstep
          subst hr0
          obtain ⟨hcnt, heth⟩ :=
            ih ({ s with requests_tx_ := s.requests_tx_ + 1, resolve_timer_running := true } : Arp)
              hc (Or.inr ⟨ch, hwp, rfl⟩) hall' r2.1 r2.2 hrun
          rw [if_neg (by simp [hwp])] at hcnt
          constructor
          · rw [if_neg (by simp [hwp])]
            simp [List.countP_cons, List.countP_append, Event.isTick, isReqFor,
              hcnt, H_request]
          · intro o ho
            rcases List.mem_append.mp ho with ho | ho
            · rcases List.mem_singleton.mp ho with rfl
              simp [Out.eth]
            · exact heth o ho
      · simp [step, hrr] at hstep
    · cases e with
      | recv f2 => simp [Event.isAdvance] at hadv
      | resolveTick => simp [Event.isAdvance] at hadv
      | flushTick => simp [Event.isAdvance] at hadv
      | xmit chain nh => simp [Event.isAdvance] at hadv
      | advance d =>
        have hr0 : (({ s with now := s.now + d } : Arp), ([] : List Out)) = r :=
          Option.some.inj hstep
        subst hr0
        obtain ⟨hcnt, heth⟩ := ih ({ s with now := s.now + d } : Arp) hc hw hall' r2.1 r2.2 hrun
        constructor
        · simp only [List.nil_append, hcnt]
          simp [List.countP_cons, List.any_cons, Event.isTick, Event.isXmitTo]
        · intro o ho
          exact heth o (by simpa using ho)

/-- C8 counterexample: the IPv4 broadcast next hop never has a cache entry
and no ARP frame from it ever arrives, yet `transmit` delivers the packet to
the link with Ethertype IPv4 (and emits no ARP request), contradicting the
claim as stated for that address. -/
theorem C8_counterexample :
    lookupA wInit.cache_ ADDR_BCAST = none ∧
    Arp.transmit wInit [⟨5, 1⟩] ADDR_BCAST =
      some (wInit, [Out.ip4 [⟨5, 1⟩] MAC_BROADCAST]) ∧
    Out.eth (Out.ip4 [⟨5, 1⟩] MAC_BROADCAST) = Ethertype.IP4 :=
  ⟨rfl, rfl, rfl⟩

/-- C8 amended: for every non-broadcast `ip` and every event sequence from a
fresh module consisting only of transmits to `ip`, resolve-timer ticks and
clock advances (so `ip` is never cached and no ARP frame from `ip` arrives),
the number of emitted ARP requests for `ip` is one per tick plus one iff some
transmit occurred (the first enqueue; later enqueues emit none), and no frame
is ever delivered with Ethertype IPv4; moreover a tick that finds the pending
queue empty stops the retry timer and emits nothing. -/
theorem C8_pending_resolution_amended (lip : IPAddr) (mac : MACAddr) (fi : Nat)
    (prx : Option (IPAddr → Bool)) (ip : IPAddr) (hip : ip ≠ ADDR_BCAST)
    (es : List Event)
    (hall : ∀ e ∈ es, Event.isXmitTo ip e = true ∨ e = Event.resolveTick ∨
      Event.isAdvance e = true)
    (s' : Arp) (outs : List Out)
    (h : runTrace (Arp.init lip mac fi prx) es = some (s', outs)) :
    (outs.countP (isReqFor ip) =
       es.countP Event.isTick + (if es.any (Event.isXmitTo ip) = true then 1 else 0)) ∧
    (∀ o ∈ outs, Out.eth o ≠ Ethertype.IP4) ∧
    (∀ t : Arp, t.waiting_packets_ = [] →
       Arp.resolve_waiting t = ({ t with resolve_timer_running := false }, [])) := by
  have hmain := C8_run ip hip es (Arp.init lip mac fi prx) rfl (Or.inl ⟨rfl, rfl⟩)
    hall s' outs h
  refine ⟨?_, hmain.2, fun t ht => resolve_waiting_empty t (by simpa using ht)⟩
  simpa [Arp.init] using hmain.1

/-- Witness for the amended C8: two transmits to 9 and two ticks emit three
requests for 9 (one initial plus one per tick) and no IPv4 frame. -/
theorem C8_witness :
    runTrace wInit w8es = some w8 ∧
    w8.2.countP (isReqFor 9) =
      w8es.countP Event.isTick + (if w8es.any (Event.isXmitTo 9) = true then 1 else 0) ∧
    w8.2.countP (isReqFor 9) = 3 := by
  have h8 := C8_pending_resolution_amended 10 2 300 none 9 (by decide) w8es
    (by decide) w8.1 w8.2 rfl
  exact ⟨rfl, h8.1, by decide⟩

theorem step_cache_keys (s : Arp) (e : Event) (s' : Arp) (outs : List Out)
    (h : step s e = some (s', outs)) (ip : IPAddr)
    (hs : (lookupA s'.cache_ ip).isSome = true) :
    (lookupA s.cache_ ip).isSome = true ∨ ∃ f, e = Event.recv f ∧ f.hdr.sipaddr = ip := by
  cases e with
  | recv f =>
    by_cases hip : ip = f.hdr.sipaddr
    · exact Or.inr ⟨f, rfl, hip.symm⟩
    · left
      obtain ⟨outs1, outs2, houts, hc, hf, hwp, hrt, hqtx, hipf, hmac, hpx, hnow, hmatch, hdisp⟩ :=
        receive_master s f s' outs h
      obtain ⟨c, b, hceq, hlook, hlookne, hnd, hcne⟩ := cache_shape s f.hdr.sipaddr f.hdr.shwaddr
      have hsame : lookupA (Arp.cache s f.hdr.sipaddr f.hdr.shwaddr).cache_ ip =
          lookupA s.cache_ ip := by
        rw [hceq]
        exact hlookne ip hip
      rw [hc, hsame] at hs
      exact hs
  | xmit chain nh =>
    rcases transmit_some s chain nh s' outs h with
      ⟨_, hs', _⟩ | ⟨_, e2, _, hs', _⟩ | ⟨_, _, hcase⟩
    · subst hs'
      exact Or.inl hs
    · subst hs'
      exact Or.inl hs
    · rcases hcase with ⟨q, _, hs', _⟩ | ⟨_, hs', _⟩
      · subst hs'
        exact Or.inl hs
      · subst hs'
        exact Or.inl hs
  | resolveTick =>
    by_cases hrr : s.resolve_timer_running
    · simp only [step, hrr, if_true, Option.some.injEq] at h
      by_cases hwq : s.waiting_packets_ = []
      · rw [resolve_waiting_empty _ (by simpa using hwq)] at h
        injection h with h1 h2
        rw [← h1] at hs
        exact Or.inl hs
      · obtain ⟨n, outs0, heq, _⟩ := resolve_waiting_nonempty
          { s with resolve_timer_running := false } (by simpa using hwq)
        rw [heq] at h
        injection h with h1 h2
        rw [← h1] at hs
        exact Or.inl hs
    · simp [step, hrr] at h
  | flushTick =>
    by_cases hfr : s.flush_timer_running
    · simp only [step, hfr, if_true, Option.some.injEq, Prod.mk.injEq] at h
      obtain ⟨c, hceq2, hmono, hnd2⟩ := flush_expired_shape { s with flush_timer_running := false }
      rw [hceq2] at h
      rw [← h.1] at hs
      exact Or.inl (hmono ip hs)
    · simp [step, hfr] at h
  | advance d =>
    simp only [step, Option.some.injEq, Prod.mk.injEq] at h
    rw [← h.1] at hs
    exact Or.inl hs

theorem runTrace_cache_keys (es : List Event) :
    ∀ (s s' : Arp) (outs : List Out), runTrace s es = some (s', outs) →
      ∀ ip, (lookupA s'.cache_ ip).isSome = true →
        (lookupA s.cache_ ip).isSome = true ∨
          ∃ f, Event.recv f ∈ es ∧ f.hdr.sipaddr = ip := by
  induction es with
  | nil =>
    intro s s' outs h ip hs
    simp only [runTrace, Option.some.injEq, Prod.mk.injEq] at h
    rw [← h.1] at hs
    exact Or.inl hs
  | cons e rest ih =>
    intro s s' outs h ip hs
    obtain ⟨r, r2, hstep, hrun, hs1, houts1⟩ := runTrace_cons s e rest s' outs h
    subst hs1
    rcases ih r.1 r2.1 r2.2 (by rw [hrun]) ip hs with hmid | ⟨f, hf, hsip⟩
    · rcases step_cache_keys s e r.1 r.2 (by rw [hstep]) ip hmid with hfst | ⟨f, hf, hsip⟩
      · exact Or.inl hfst
      · exact Or.inr ⟨f, by rw [hf]; exact List.mem_cons_self _ _, hsip⟩
    · exact Or.inr ⟨f, List.mem_cons_of_mem e hf, hsip⟩

/-- C9 counterexample: an inbound frame whose sender IPv4 field equals the
local address is cached like any other sender, so a reachable state holds a
cache entry for the local IPv4, contradicting the claimed invariant. -/
theorem C9_counterexample :
    Reachable w9.1 ∧ w9.1.ip_addr = 10 ∧ (lookupA w9.1.cache_ 10).map Entry.mac = some 66 := by
  refine ⟨?_, rfl, by decide⟩
  exact Reachable.step wInit (Event.recv c9f) w9.1 w9.2 (Reachable.init 10 2 300 none) rfl

/-- C9 amended: the module never filters sender addresses; the cache only
ever contains senders of received frames.  Hence in every run in which no
received frame carries sender IPv4 equal to the local or the broadcast
address, the cache has no entry for either. -/
theorem C9_no_local_bcast_amended (lip : IPAddr) (mac : MACAddr) (fi : Nat)
    (prx : Option (IPAddr → Bool)) (es : List Event) (s' : Arp) (outs : List Out)
    (h : runTrace (Arp.init lip mac fi prx) es = some (s', outs))
    (hn : ∀ f : RecvFrame, Event.recv f ∈ es →
       f.hdr.sipaddr ≠ lip ∧ f.hdr.sipaddr ≠ ADDR_BCAST) :
    lookupA s'.cache_ lip = none ∧ lookupA s'.cache_ ADDR_BCAST = none := by
  constructor
  · cases hl : lookupA s'.cache_ lip with
    | none => rfl
    | some v =>
      rcases runTrace_cache_keys es (Arp.init lip mac fi prx) s' outs h lip
          (by rw [hl]; rfl) with hin | ⟨f, hf, hsip⟩
      · simp [Arp.init] at hin
      · exact absurd hsip (hn f hf).1
  · cases hl : lookupA s'.cache_ ADDR_BCAST with
    | none => rfl
    | some v =>
      rcases runTrace_cache_keys es (Arp.init lip mac fi prx) s' outs h ADDR_BCAST
          (by rw [hl]; rfl) with hin | ⟨f, hf, hsip⟩
      · simp [Arp.init] at hin
      · exact absurd hsip (hn f hf).2

/-- Witness for the amended C9: one received frame from the foreign sender 5
leaves no cache entry for the local 10 or for the broadcast address. -/
theorem C9_witness :
    runTrace wInit w9es = some w9t ∧
    lookupA w9t.1.cache_ 10 = none ∧ lookupA w9t.1.cache_ ADDR_BCAST = none := by
  have h9 := C9_no_local_bcast_amended 10 2 300 none w9es w9t.1 w9t.2 rfl ?_
  · exact ⟨rfl, h9.1, h9.2⟩
  · intro f hf
    simp only [w9es, List.mem_singleton, Event.recv.injEq] at hf
    subst hf
    exact ⟨by decide, by decide⟩

/-- C10: a frame with an opcode that is neither request nor reply still
learns the sender binding and drains any pending chain for the sender to the
link, then does nothing opcode-specific: `requests_rx_`, `replies_rx_` and
`replies_tx_` are unchanged and no ARP frame is emitted. -/
theorem C10_unknown_opcode (s : Arp) (f : RecvFrame) (s' : Arp) (outs : List Out)
    (hop1 : f.hdr.opcode ≠ H_request) (hop2 : f.hdr.opcode ≠ H_reply)
    (h : Arp.receive s f = some (s', outs)) :
    (lookupA s'.cache_ f.hdr.sipaddr).map Entry.mac = some f.hdr.shwaddr ∧
    (∀ chain, lookupA s.waiting_packets_ f.hdr.sipaddr = some chain →
       ∃ d, Out.ip4 chain d ∈ outs) ∧
    lookupA s'.waiting_packets_ f.hdr.sipaddr = none ∧
    s'.requests_rx_ = s.requests_rx_ ∧ s'.replies_rx_ = s.replies_rx_ ∧
    s'.replies_tx_ = s.replies_tx_ ∧
    (∀ o ∈ outs, Out.eth o ≠ Ethertype.ARP) := by
  obtain ⟨outs1, outs2, houts, hc, hf, hwp, hrt, hqtx, hip, hmac, hpx, hnow, hmatch, hdisp⟩ :=
    receive_master s f s' outs h
  obtain ⟨c, b, hceq, hlook, hlookne, hnd, hcne⟩ := cache_shape s f.hdr.sipaddr f.hdr.shwaddr
  rcases hdisp with ⟨hq, _⟩ | ⟨_, hq, _⟩ | ⟨_, _, ho2, hrx, hrr, htx⟩
  · exact absurd hq hop1
  · exact absurd hq hop2
  · refine ⟨?_, ?_, ?_, hrx, hrr, htx, ?_⟩
    · rw [hc, hceq]
      simp [hlook]
    · intro chain hch
      rw [hch] at hmatch
      obtain ⟨d, ho1, _⟩ := hmatch
      refine ⟨d, ?_⟩
      rw [houts, ho1]
      exact List.mem_append_left _ (List.mem_singleton.mpr rfl)
    · rw [hwp]
      exact lookupA_eraseA_self _ _
    · intro o ho
      rw [houts, ho2, List.append_nil] at ho
      cases hw : lookupA s.waiting_packets_ f.hdr.sipaddr with
      | none =>
        rw [hw] at hmatch
        rw [hmatch] at ho
        cases ho
      | some chain =>
        rw [hw] at hmatch
        obtain ⟨d, ho1, _⟩ := hmatch
        rw [ho1] at ho
        rcases List.mem_singleton.mp ho with rfl
        simp [Out.eth]

/-- Witness for C10: a frame with opcode 7 from sender 9 on `wPend` learns
the binding, drains the pending packet and changes no counter. -/
theorem C10_witness :
    Arp.receive wPend (wFrame 7 9 77 10) = some w10 ∧
    (lookupA w10.1.cache_ 9).map Entry.mac = some 77 ∧
    lookupA w10.1.waiting_packets_ 9 = none ∧
    w10.1.requests_rx_ = wPend.requests_rx_ ∧ w10.1.replies_rx_ = wPend.replies_rx_ := by
  have h10 := C10_unknown_opcode wPend (wFrame 7 9 77 10) w10.1 w10.2
    (by decide) (by decide) rfl
  exact ⟨rfl, h10.1, h10.2.2.1, h10.2.2.2.1, h10.2.2.2.2.1⟩

end ArpSpec
